import Mathlib

/-!
# Verification of the moonshine-flow recording/transcription core

Shallow embedding of the Python sources of `moonshine-flow` and proofs about
them.  Text is modelled as `List Char`, monotonic time as `ℚ`, NumPy sample
buffers as lists of rows.  Every definition below is translated from a named
function of the repository (module and line references are given in the doc
comments).
-/

namespace MoonshineFlow

/-! Text normalizer (`text_processing/normalizer.py`) -/

/-- Characters matched by Python's `\s` on `str` patterns; this is also the
set stripped by `str.strip()`.  (`　` is listed explicitly in the source
pattern `(?:\s|　)+` but is already contained in `\s`.) -/
def isPyWhitespace (c : Char) : Bool :=
  let n := c.toNat
  n = 0x20 || (0x9 ≤ n && n ≤ 0xd) || (0x1c ≤ n && n ≤ 0x1f) ||
  n = 0x85 || n = 0xa0 || n = 0x1680 || (0x2000 ≤ n && n ≤ 0x200a) ||
  n = 0x2028 || n = 0x2029 || n = 0x202f || n = 0x205f || n = 0x3000

/-- The character class `_JAPANESE_CHAR_CLASS` of `normalizer.py`:
`぀-ヿ 㐀-䶿 一-鿿 豈-﫿` plus the literal
characters 々 (U+3005), 〆 (U+3006), ヵ (U+30F5), ヶ (U+30F6), ー (U+30FC). -/
def isJapaneseChar (c : Char) : Bool :=
  let n := c.toNat
  (0x3040 ≤ n && n ≤ 0x30ff) || (0x3400 ≤ n && n ≤ 0x4dbf) ||
  (0x4e00 ≤ n && n ≤ 0x9fff) || (0xf900 ≤ n && n ≤ 0xfaff) ||
  n = 0x3005 || n = 0x3006 || n = 0x30f5 || n = 0x30f6 || n = 0x30fc

/-- Python `str.strip()`: drop whitespace from both ends. -/
def stripText (l : List Char) : List Char :=
  ((l.dropWhile isPyWhitespace).reverse.dropWhile isPyWhitespace).reverse

/-- Whether a list of characters begins with a Japanese character. -/
def headJapanese (l : List Char) : Bool :=
  match l with
  | [] => false
  | c :: _ => isJapaneseChar c

/-- One pass of `_JAPANESE_INNER_WHITESPACE_PATTERN.sub("", ...)`.  The
pattern's matches are exactly the maximal whitespace runs whose original
predecessor and successor are both Japanese characters (the lookahead
`(?=[J])` can only hold at the end of a maximal run, since whitespace is
never Japanese).  `prevJ` records whether the character preceding the
current position in the original text — or preceding the whitespace run the
position sits in — is Japanese; a whitespace character is dropped exactly
when `prevJ` holds and the first character after the run is Japanese. -/
def rjwAux : Bool → List Char → List Char
  | _, [] => []
  | prevJ, c :: rest =>
    if isPyWhitespace c then
      if prevJ && headJapanese (rest.dropWhile isPyWhitespace) then
        rjwAux prevJ rest
      else
        c :: rjwAux false rest
    else
      c :: rjwAux (isJapaneseChar c) rest

/-- Substitution `_JAPANESE_INNER_WHITESPACE_PATTERN.sub("", ...)`: remove
every maximal run of whitespace that is immediately preceded and followed by
a Japanese character. -/
def removeJapaneseInnerWhitespace (l : List Char) : List Char :=
  rjwAux false l

/-- Function `normalize_transcript_text` (`normalizer.py`, lines 13-18): strip, return
`""` when empty, otherwise delete whitespace between Japanese characters. -/
def normalize_transcript_text (text : List Char) : List Char :=
  let normalized := stripText text
  if normalized = [] then [] else removeJapaneseInnerWhitespace normalized

/-! Correction rule engine (`text_processing/corrections.py`)

A compiled regex pattern is embedded abstractly by its `finditer` behaviour:
the function from a text to the list of match spans `(start, end)` that
`re.Pattern.finditer` yields over it.  `CorrectionRuleSet.apply` consumes
matches only through `match.start()`/`match.end()`, so this interface is
exactly what the source reads. -/

/-- Structure `CompiledRegexRule` (`corrections.py`, lines 12-17).  `canonical` is the
replacement, `finditer` the compiled pattern's match spans, `order` the
insertion-order priority. -/
structure CompiledRegexRule where
  canonical : List Char
  finditer : List Char → List (Nat × Nat)
  order : Nat

/-- Structure `CorrectionRuleSet` (`corrections.py`, lines 20-25).  The Python `dict`
`exact_lookup` is embedded as an association list consulted with `lookup`. -/
structure CorrectionRuleSet where
  exact_lookup : List (List Char × List Char)
  regex_rules : List CompiledRegexRule

/-- One replacement candidate: the tuple `(match.start(), match.end(),
rule.order, rule.canonical)` built at `corrections.py` line 56. -/
structure Cand where
  start : Nat
  stop : Nat
  order : Nat
  canonical : List Char
deriving DecidableEq

/-- The candidate-gathering loop (`corrections.py`, lines 51-56): for each
rule in declaration order, every match span, skipping zero-length matches. -/
def gatherCandidates (rules : List CompiledRegexRule) (text : List Char) :
    List Cand :=
  (rules.map fun r =>
    (r.finditer text).filterMap fun p =>
      if p.1 = p.2 then none
      else some ⟨p.1, p.2, r.order, r.canonical⟩).flatten

/-- The second component of the Python sort key
`(item[0], -(item[1] - item[0]), item[2])` (`corrections.py`, line 61). -/
def negLenKey (c : Cand) : Int :=
  -((c.stop : Int) - (c.start : Int))

/-- Lexicographic `≤` on the Python sort key
`(start, -(end - start), order)`. -/
def pyLexLe (a b : Cand) : Bool :=
  decide (a.start < b.start ∨ (a.start = b.start ∧
    (negLenKey a < negLenKey b ∨
      (negLenKey a = negLenKey b ∧ a.order ≤ b.order))))

/-- Match length `end - start` of a candidate span. -/
def matchLen (c : Cand) : Nat := c.stop - c.start

/-- The ranking in the words of the spec: start position ascending, match
length descending, declaration order ascending. -/
def specRankLe (a b : Cand) : Bool :=
  decide (a.start < b.start ∨ (a.start = b.start ∧
    (matchLen b < matchLen a ∨
      (matchLen a = matchLen b ∧ a.order ≤ b.order))))

/-- Stable insertion into a ranked list: an element is placed before the
first existing element it compares `≤` to, so elements with equal rank keep
their original relative order. -/
def insertRanked (le : Cand → Cand → Bool) (c : Cand) :
    List Cand → List Cand
  | [] => [c]
  | d :: l => if le c d then c :: d :: l else d :: insertRanked le c l

/-- Stable sort by the comparator `le`.  `list.sort(key=...)` in Python is a
stable sort by the key order, and a stable sort by a total preorder is
unique, so this embeds `candidates.sort(...)` (`corrections.py`, line 61). -/
def sortRanked (le : Cand → Cand → Bool) : List Cand → List Cand
  | [] => []
  | c :: l => insertRanked le c (sortRanked le l)

/-- The greedy acceptance loop of the source (`corrections.py`, lines 63-69):
a cursor holds the end of the last accepted match; a candidate starting
before the cursor is skipped, any other is accepted and advances the cursor
to its end. -/
def selectGo (cursor : Nat) : List Cand → List Cand
  | [] => []
  | c :: rest =>
    if c.start < cursor then selectGo cursor rest
    else c :: selectGo c.stop rest

/-- Whether candidate `c` starts inside the accepted match `a`. -/
def startInside (a c : Cand) : Bool :=
  decide (a.start ≤ c.start) && decide (c.start < a.stop)

/-- The greedy acceptance in the words of the spec: walk the ranked
candidates left to right, skipping any candidate whose start lies inside an
already-accepted match. -/
def selectSpec (accepted : List Cand) : List Cand → List Cand
  | [] => []
  | c :: rest =>
    if accepted.any (fun a => startInside a c) then selectSpec accepted rest
    else c :: selectSpec (accepted ++ [c]) rest

/-- Rebuilding the output string (`corrections.py`, lines 74-83): emit the
text between the cursor and each selected match, then the match's canonical
replacement; finally the tail after the last match. -/
def buildParts (text : List Char) (cursor : Nat) : List Cand → List Char
  | [] => text.drop cursor
  | c :: rest =>
    (text.drop cursor).take (c.start - cursor) ++ c.canonical ++
      buildParts text c.stop rest

/-- Method `CorrectionRuleSet.apply` (`corrections.py`, lines 39-83). -/
def CorrectionRuleSet.apply (rs : CorrectionRuleSet) (text : List Char) :
    List Char :=
  let normalized := normalize_transcript_text text
  if normalized = [] then []
  else
    match rs.exact_lookup.lookup normalized with
    | some hit => hit
    | none =>
      if rs.regex_rules.isEmpty then normalized
      else
        let candidates := gatherCandidates rs.regex_rules normalized
        if candidates = [] then normalized
        else
          let selected := selectGo 0 (sortRanked pyLexLe candidates)
          if selected = [] then normalized
          else buildParts normalized 0 selected

/-- Method `CorrectionRuleSet.apply` as the spec describes it: identical except that
the candidates are ranked by the spec's verbal ordering (`specRankLe`) and
the greedy pass skips exactly the candidates whose start lies inside an
already-accepted match (`selectSpec`). -/
def CorrectionRuleSet.applySpecDescribed (rs : CorrectionRuleSet)
    (text : List Char) : List Char :=
  let normalized := normalize_transcript_text text
  if normalized = [] then []
  else
    match rs.exact_lookup.lookup normalized with
    | some hit => hit
    | none =>
      if rs.regex_rules.isEmpty then normalized
      else
        let candidates := gatherCandidates rs.regex_rules normalized
        if candidates = [] then normalized
        else
          let selected := selectSpec [] (sortRanked specRankLe candidates)
          if selected = [] then normalized
          else buildParts normalized 0 selected

/-! Lemmas about the ranking and the greedy selection -/

theorem mem_insertRanked {le : Cand → Cand → Bool} {c x : Cand}
    {l : List Cand} : x ∈ insertRanked le c l ↔ x = c ∨ x ∈ l := by
  induction l with
  | nil => simp [insertRanked]
  | cons d l ih =>
    by_cases h : le c d
    · simp [insertRanked, h]
    · simp only [insertRanked, if_neg h, List.mem_cons, ih]
      tauto

theorem mem_sortRanked {le : Cand → Cand → Bool} {x : Cand}
    {l : List Cand} : x ∈ sortRanked le l ↔ x ∈ l := by
  induction l with
  | nil => simp [sortRanked]
  | cons c l ih => simp [sortRanked, mem_insertRanked, ih]

theorem insertRanked_congr {le₁ le₂ : Cand → Cand → Bool} {c : Cand}
    {l : List Cand} (h : ∀ y ∈ l, le₁ c y = le₂ c y) :
    insertRanked le₁ c l = insertRanked le₂ c l := by
  induction l with
  | nil => rfl
  | cons d l ih =>
    have hd : le₁ c d = le₂ c d := h d (by simp)
    by_cases h1 : le₁ c d
    · simp [insertRanked, h1, hd ▸ h1]
    · have h2 : ¬ (le₂ c d = true) := by rw [← hd]; exact h1
      simp only [insertRanked, if_neg h1, if_neg h2]
      rw [ih fun y hy => h y (by simp [hy])]

theorem sortRanked_congr {le₁ le₂ : Cand → Cand → Bool} {l : List Cand}
    (h : ∀ x ∈ l, ∀ y ∈ l, le₁ x y = le₂ x y) :
    sortRanked le₁ l = sortRanked le₂ l := by
  induction l with
  | nil => rfl
  | cons c l ih =>
    simp only [sortRanked]
    rw [ih fun x hx y hy => h x (by simp [hx]) y (by simp [hy])]
    exact insertRanked_congr fun y hy =>
      h c (by simp) y (by simp [mem_sortRanked.mp hy])

theorem pyLexLe_eq_specRankLe {a b : Cand} (ha : a.start ≤ a.stop)
    (hb : b.start ≤ b.stop) : pyLexLe a b = specRankLe a b := by
  simp only [pyLexLe, specRankLe, negLenKey, matchLen, decide_eq_decide]
  omega

theorem pyLexLe_total (a b : Cand) : pyLexLe a b = true ∨ pyLexLe b a = true := by
  simp only [pyLexLe, decide_eq_true_eq]
  omega

theorem pyLexLe_trans {a b c : Cand} (h₁ : pyLexLe a b = true)
    (h₂ : pyLexLe b c = true) : pyLexLe a c = true := by
  simp only [pyLexLe, decide_eq_true_eq] at h₁ h₂ ⊢
  omega

theorem pyLexLe_start_le {a b : Cand} (h : pyLexLe a b = true) :
    a.start ≤ b.start := by
  simp only [pyLexLe, decide_eq_true_eq] at h
  omega

theorem pairwise_insertRanked {le : Cand → Cand → Bool}
    (htot : ∀ a b, le a b = true ∨ le b a = true)
    (htrans : ∀ {a b c}, le a b = true → le b c = true → le a c = true)
    {c : Cand} {l : List Cand} (hl : l.Pairwise (fun a b => le a b = true)) :
    (insertRanked le c l).Pairwise (fun a b => le a b = true) := by
  induction l with
  | nil => simp [insertRanked]
  | cons d l ih =>
    rcases List.pairwise_cons.mp hl with ⟨hd, hl'⟩
    by_cases h1 : le c d
    · simp only [insertRanked, if_pos h1]
      refine List.pairwise_cons.mpr ⟨?_, hl⟩
      intro x hx
      rcases List.mem_cons.mp hx with rfl | hx'
      · exact h1
      · exact htrans h1 (hd x hx')
    · have hdc : le d c = true := (htot c d).resolve_left h1
      simp only [insertRanked, if_neg h1]
      refine List.pairwise_cons.mpr ⟨?_, ih hl'⟩
      intro x hx
      rcases mem_insertRanked.mp hx with rfl | hx'
      · exact hdc
      · exact hd x hx'

theorem pairwise_sortRanked {le : Cand → Cand → Bool}
    (htot : ∀ a b, le a b = true ∨ le b a = true)
    (htrans : ∀ {a b c}, le a b = true → le b c = true → le a c = true)
    (l : List Cand) :
    (sortRanked le l).Pairwise (fun a b => le a b = true) := by
  induction l with
  | nil => simp [sortRanked]
  | cons c l ih => exact pairwise_insertRanked htot htrans ih

theorem selectGo_eq_selectSpec :
    ∀ (l : List Cand) (cursor : Nat) (acc : List Cand),
      l.Pairwise (fun a b => a.start ≤ b.start) →
      (∀ c ∈ l, c.start < c.stop) →
      (∀ a ∈ acc, a.stop ≤ cursor) →
      (cursor = 0 ∨ ∃ a ∈ acc, a.stop = cursor ∧ ∀ c ∈ l, a.start ≤ c.start) →
      selectGo cursor l = selectSpec acc l := by
  intro l
  induction l with
  | nil => intro cursor acc _ _ _ _; rfl
  | cons c rest ih =>
    intro cursor acc hsorted hlt hacc hinv
    rcases List.pairwise_cons.mp hsorted with ⟨hc, hrest⟩
    by_cases hskip : c.start < cursor
    · -- the code skips `c`; so does the spec, because `c.start` lies inside
      -- the last accepted match
      rcases hinv with rfl | ⟨a, hmem, hstop, hle⟩
      · omega
      · have hany : acc.any (fun a => startInside a c) = true := by
          refine List.any_eq_true.mpr ⟨a, hmem, ?_⟩
          have h1 : a.start ≤ c.start := hle c (by simp)
          have h2 : c.start < a.stop := by omega
          simp [startInside, h1, h2]
        simp only [selectGo, if_pos hskip, selectSpec, hany, if_pos rfl]
        exact ih cursor acc hrest (fun d hd => hlt d (by simp [hd])) hacc
          (Or.inr ⟨a, hmem, hstop, fun d hd => hle d (by simp [hd])⟩)
    · -- the code accepts `c`; no accepted match contains `c.start`
      have hany : acc.any (fun a => startInside a c) = false := by
        rw [List.any_eq_false]
        intro a hmem
        have h1 : a.stop ≤ cursor := hacc a hmem
        simp only [startInside, Bool.and_eq_true, decide_eq_true_eq, not_and]
        omega
      simp only [selectGo, selectSpec]
      rw [if_neg hskip, if_neg (by rw [hany]; simp)]
      have hcs : c.start < c.stop := hlt c (by simp)
      refine congrArg (c :: ·) (ih c.stop (acc ++ [c]) hrest
        (fun d hd => hlt d (by simp [hd])) ?_ ?_)
      · intro a hmem
        rcases List.mem_append.mp hmem with h | h
        · have := hacc a h; omega
        · simp at h; subst h; omega
      · exact Or.inr ⟨c, by simp, rfl, hc⟩

theorem gatherCandidates_start_lt_stop {rules : List CompiledRegexRule}
    {text : List Char}
    (h : ∀ r ∈ rules, ∀ p ∈ r.finditer text, p.1 ≤ p.2) :
    ∀ c ∈ gatherCandidates rules text, c.start < c.stop := by
  intro c hc
  simp only [gatherCandidates, List.mem_flatten, List.mem_map] at hc
  rcases hc with ⟨l, ⟨r, hr, rfl⟩, hcl⟩
  rcases List.mem_filterMap.mp hcl with ⟨p, hp, hpc⟩
  by_cases hz : p.1 = p.2
  · simp [hz] at hpc
  · simp only [if_neg hz] at hpc
    cases hpc
    have := h r hr p hp
    show p.1 < p.2
    omega

/-- The ranked-then-greedy pipeline of the code equals the one the spec
describes, for candidate sets whose spans satisfy `start ≤ end` (true of
every `re.Match`). -/
theorem selected_code_eq_spec {cands : List Cand}
    (h : ∀ c ∈ cands, c.start < c.stop) :
    selectGo 0 (sortRanked pyLexLe cands) =
      selectSpec [] (sortRanked specRankLe cands) := by
  have hsorteq : sortRanked specRankLe cands = sortRanked pyLexLe cands := by
    refine (sortRanked_congr fun x hx y hy => ?_).symm
    exact pyLexLe_eq_specRankLe (le_of_lt (h x hx)) (le_of_lt (h y hy))
  rw [hsorteq]
  refine selectGo_eq_selectSpec _ 0 [] ?_ ?_ (by simp) (Or.inl rfl)
  · exact (pairwise_sortRanked pyLexLe_total
      (fun h1 h2 => pyLexLe_trans h1 h2) cands).imp pyLexLe_start_le
  · intro c hc
    exact h c (mem_sortRanked.mp hc)

/-- C1: for every input text and rule set (whose abstract match spans satisfy
`start ≤ end`, as every `re.Match` does), `CorrectionRuleSet.apply` performs
exactly the replacement the spec describes: all non-zero-length matches of
all regex rules over the normalized text, ranked by start position
ascending, match length descending, declaration order ascending, greedily
accepted left to right skipping any candidate whose start lies inside an
already-accepted match — so at equal start the longer match wins, and at
equal span the earlier-declared rule wins. -/
theorem correction_apply_matches_spec_ranking (rs : CorrectionRuleSet)
    (t : List Char)
    (h : ∀ r ∈ rs.regex_rules,
      ∀ p ∈ r.finditer (normalize_transcript_text t), p.1 ≤ p.2) :
    rs.apply t = rs.applySpecDescribed t := by
  have key := selected_code_eq_spec (gatherCandidates_start_lt_stop h)
  simp only [CorrectionRuleSet.apply, CorrectionRuleSet.applySpecDescribed]
  rw [key]

/-- Concrete regex rule for the C1 witness: one match `[0, 2)`. -/
def ruleShort : CompiledRegexRule :=
  ⟨['X'], fun _ => [(0, 2)], 0⟩

/-- Concrete regex rule for the C1 witness: one match `[0, 4)` that overlaps
`ruleShort` at the same start. -/
def ruleLong : CompiledRegexRule :=
  ⟨['Y'], fun _ => [(0, 4)], 1⟩

/-- Concrete rule set for the C1 witness. -/
def witnessRuleSet : CorrectionRuleSet :=
  ⟨[], [ruleShort, ruleLong]⟩

/-- Concrete input text for the C1 witness. -/
def witnessText : List Char := ['a', 'b', 'c', 'd', 'e', 'f']

/-- Witness for C1 at a concrete rule set and text. -/
theorem correction_apply_matches_spec_ranking_witness :
    (∀ r ∈ witnessRuleSet.regex_rules,
      ∀ p ∈ r.finditer (normalize_transcript_text witnessText), p.1 ≤ p.2) ∧
    witnessRuleSet.apply witnessText =
      witnessRuleSet.applySpecDescribed witnessText :=
  ⟨by decide,
    correction_apply_matches_spec_ranking witnessRuleSet witnessText
      (by decide)⟩

/-! Audio recorder (`audio_recorder.py`)

One delivered audio chunk (`indata` of the stream callback, shape
`(n, channels)`) is a list of sample rows; `np.concatenate(..., axis=0)` is
then list flattening, and `np.empty((0, channels))` is the empty row list.
The live `sounddevice.InputStream` is opaque to the claims below, so
`stream` only records whether `self._stream` is set. -/

/-- One audio chunk: rows of samples. -/
abbrev Chunk := List (List Int)

/-- State of an `AudioRecorder` (`audio_recorder.py`, lines 27-47):
configuration plus the mutable fields `_frames`, `_recording`, `_stream`. -/
structure AudioRecorder where
  sample_rate : Nat
  channels : Nat
  max_record_seconds : Nat
  frames : List Chunk
  recording : Bool
  stream : Option Unit
deriving DecidableEq

/-- The hard frame ceiling `self._max_frames = sample_rate *
max_record_seconds` (`audio_recorder.py`, line 47). -/
def AudioRecorder.maxFrames (r : AudioRecorder) : Nat :=
  r.sample_rate * r.max_record_seconds

/-- Total accumulated frames: `sum(chunk.shape[0] for chunk in
self._frames)` (`audio_recorder.py`, line 200). -/
def totalFrames (frames : List Chunk) : Nat :=
  (frames.map List.length).sum

/-- Method `AudioRecorder._callback` (`audio_recorder.py`, lines 185-204):
ignore the chunk unless recording; otherwise append it, and when the running
total reaches the ceiling clear the flag and raise `sd.CallbackStop` (the
returned boolean), which signals the stream to stop from within the
delivery callback. -/
def recorderCallback (r : AudioRecorder) (indata : Chunk) :
    AudioRecorder × Bool :=
  if r.recording then
    let frames2 := r.frames ++ [indata]
    if r.maxFrames ≤ totalFrames frames2 then
      ({ r with frames := frames2, recording := false }, true)
    else
      ({ r with frames := frames2 }, false)
  else
    (r, false)

/-- A whole sequence of chunks delivered to the callback, in order; the
boolean remembers whether `sd.CallbackStop` was ever raised. -/
def deliverChunks (r : AudioRecorder) (chunks : List Chunk) :
    AudioRecorder × Bool :=
  chunks.foldl
    (fun acc c =>
      let step := recorderCallback acc.1 c
      (step.1, acc.2 || step.2))
    (r, false)

/-- Method `AudioRecorder.stop` (`audio_recorder.py`, lines 223-235):
dispose the stream, clear the recording flag, and return the concatenated
frame buffer — `np.empty((0, channels))`, i.e. `[]`, when no frames were
captured — leaving the frame buffer empty. -/
def AudioRecorder.stop (r : AudioRecorder) : Chunk × AudioRecorder :=
  let r1 : AudioRecorder := { r with stream := none }
  if r1.frames = [] then
    ([], { r1 with recording := false })
  else
    (r1.frames.flatten, { r1 with recording := false, frames := [] })

/-- Method `AudioRecorder.close` (`audio_recorder.py`, lines 237-245): clear
the flag and buffer, then dispose any stream. -/
def AudioRecorder.close (r : AudioRecorder) : AudioRecorder :=
  let r1 : AudioRecorder := { r with recording := false, frames := [] }
  if r1.stream = none then r1 else { r1 with stream := none }

/-- Outcome of `_ensure_stream` inside `start`: either a healthy stream is
open afterwards, or opening/starting raised, leaving behind whatever stream
object had been assigned so far (`none` when the constructor itself raised). -/
inductive EnsureOutcome
  | ok
  | fail (leftover : Option Unit)
deriving DecidableEq

/-- Method `AudioRecorder.start` (`audio_recorder.py`, lines 206-221):
no-op while already recording; otherwise reset the buffer, set the flag, and
run `_ensure_stream`.  On failure the flag is cleared, `close()` runs, and
the exception propagates (the returned boolean). -/
def AudioRecorder.start (r : AudioRecorder) (outcome : EnsureOutcome) :
    AudioRecorder × Bool :=
  if r.recording then (r, false)
  else
    let r1 : AudioRecorder := { r with frames := [], recording := true }
    match outcome with
    | .ok => ({ r1 with stream := some () }, false)
    | .fail leftover =>
      (AudioRecorder.close { r1 with recording := false, stream := leftover },
        true)

/-! Theorems about the audio recorder -/

theorem deliverChunks_go_not_recording {r : AudioRecorder}
    (h : r.recording = false) :
    ∀ (chunks : List Chunk) (b : Bool),
      chunks.foldl
        (fun acc c =>
          let step := recorderCallback acc.1 c
          (step.1, acc.2 || step.2))
        (r, b) = (r, b) := by
  intro chunks
  induction chunks with
  | nil => intro b; rfl
  | cons c cs ih =>
    intro b
    have hc : recorderCallback r c = (r, false) := by
      simp [recorderCallback, h]
    simp only [List.foldl_cons, hc, Bool.or_false]
    exact ih b

/-- Recorder with frame ceiling `3 = 1 × 3` for the C2 counterexample,
currently recording with an empty buffer. -/
def recAtCeiling3 : AudioRecorder :=
  ⟨1, 1, 3, [], true, some ()⟩

/-- A chunk of four sample rows. -/
def chunk4 : Chunk := [[0], [0], [0], [0]]

/-- C2 counterexample: the claim says the surplus beyond the ceiling
`sample_rate × max_record_seconds` is dropped rather than buffered, but the
chunk that crosses the ceiling is appended whole before the ceiling check,
so with ceiling 3 a single four-row chunk leaves four buffered frames. -/
theorem recorder_ceiling_surplus_buffered :
    recAtCeiling3.maxFrames <
      totalFrames ((recorderCallback recAtCeiling3 chunk4).1.frames) := by
  decide

/-- C2 amended: frames are appended only while the recording flag is true;
as soon as the accumulated total (including the chunk that crosses the
ceiling, which is buffered in full) reaches `sample_rate ×
max_record_seconds`, the flag is cleared and `sd.CallbackStop` is raised
from within the delivery callback itself — so `is_recording` becomes false
without an explicit `stop()` call — and every chunk delivered afterwards is
dropped rather than buffered. -/
theorem recorder_ceiling_halts_capture (r : AudioRecorder) (c : Chunk)
    (chunks : List Chunk) :
    (r.recording = false → recorderCallback r c = (r, false)) ∧
    (r.recording = true →
      r.maxFrames ≤ totalFrames (r.frames ++ [c]) →
      (recorderCallback r c).1.recording = false ∧
      (recorderCallback r c).2 = true ∧
      (recorderCallback r c).1.frames = r.frames ++ [c]) ∧
    (r.recording = false → (deliverChunks r chunks).1 = r) := by
  refine ⟨?_, ?_, ?_⟩
  · intro h
    simp [recorderCallback, h]
  · intro h hceil
    simp [recorderCallback, h, hceil]
  · intro h
    unfold deliverChunks
    rw [deliverChunks_go_not_recording h]

/-- Witness for C2's amended theorem: the no-op branch at a non-recording
recorder, and the ceiling branch at `recAtCeiling3` with a four-row chunk. -/
theorem recorder_ceiling_halts_capture_witness :
    recorderCallback ⟨1, 1, 3, [], false, none⟩ chunk4 =
      (⟨1, 1, 3, [], false, none⟩, false) ∧
    ((recorderCallback recAtCeiling3 chunk4).1.recording = false ∧
      (recorderCallback recAtCeiling3 chunk4).2 = true ∧
      (recorderCallback recAtCeiling3 chunk4).1.frames =
        recAtCeiling3.frames ++ [chunk4]) :=
  ⟨(recorder_ceiling_halts_capture ⟨1, 1, 3, [], false, none⟩ chunk4 []).1 rfl,
    (recorder_ceiling_halts_capture recAtCeiling3 chunk4 []).2.1 rfl
      (by decide)⟩

/-- C9: `stop()` returns the concatenation, in delivery order, of all
accumulated frame chunks — `[]`, the model of `np.empty((0, channels))`,
when nothing was captured — and afterwards the recording flag is false, the
frame buffer is empty, and no stream is held, regardless of whether a
stream existed. -/
theorem recorder_stop_returns_concatenation (r : AudioRecorder) :
    (r.stop).1 = r.frames.flatten ∧
    (r.stop).2.recording = false ∧
    (r.stop).2.frames = [] ∧
    (r.stop).2.stream = none := by
  unfold AudioRecorder.stop
  by_cases h : r.frames = [] <;> simp [h]

/-- Recorder holding a leftover uncollected frame buffer (reachable after
the ceiling stops capture but before `stop()` collects it), used for the
C10 counterexample. -/
def recLeftoverFrames : AudioRecorder :=
  ⟨1, 1, 3, [[[5]]], false, none⟩

/-- C10 counterexample: a failed `start()` does not leave the recorder in
the same observable state as before the call — a leftover frame buffer from
before the call is discarded by the failed start. -/
theorem recorder_failed_start_not_identity :
    (recLeftoverFrames.start (.fail none)).2 = true ∧
    (recLeftoverFrames.start (.fail none)).1 ≠ recLeftoverFrames := by
  decide

/-- C10 amended: when `start()` fails while opening or starting the stream
(which can only happen when the recorder was not already recording), the
exception propagates and the recorder is left fully reset — recording flag
false, frame buffer empty, any partially opened stream disposed via
`close()` — which coincides with the pre-call state whenever the pre-call
buffer was already empty and no stream object was held. -/
theorem recorder_failed_start_resets (r : AudioRecorder)
    (leftover : Option Unit) (h : r.recording = false) :
    (r.start (.fail leftover)).2 = true ∧
    (r.start (.fail leftover)).1 =
      { r with frames := [], recording := false, stream := none } ∧
    (r.frames = [] → r.stream = none → (r.start (.fail leftover)).1 = r) := by
  refine ⟨?_, ?_, ?_⟩
  · simp [AudioRecorder.start, AudioRecorder.close, h]
  · simp [AudioRecorder.start, AudioRecorder.close, h]
  · intro h1 h2
    cases r
    simp_all [AudioRecorder.start, AudioRecorder.close]

/-- Witness for C10's amended theorem at a concrete reset recorder with a
leftover stream object from the failed open. -/
theorem recorder_failed_start_resets_witness :
    ((⟨1, 1, 3, [], false, none⟩ : AudioRecorder).recording = false) ∧
    (((⟨1, 1, 3, [], false, none⟩ : AudioRecorder).start
        (.fail (some ()))).2 = true ∧
      ((⟨1, 1, 3, [], false, none⟩ : AudioRecorder).start
        (.fail (some ()))).1 =
        ⟨1, 1, 3, [], false, none⟩ ∧
      (([] : List Chunk) = [] → (none : Option Unit) = none →
        ((⟨1, 1, 3, [], false, none⟩ : AudioRecorder).start
          (.fail (some ()))).1 = ⟨1, 1, 3, [], false, none⟩)) :=
  ⟨rfl, recorder_failed_start_resets ⟨1, 1, 3, [], false, none⟩ (some ()) rfl⟩

/-! LLM correction stage (`text_processing/llm.py`)

The remote client (`LLMClient.correct`) is abstracted as a function
returning `Except Unit (List Char)`: `.error ()` models a raised
`LLMClientError`, the only exception `apply` catches.  Monotonic time
(`time.monotonic()`) is a rational passed in explicitly. -/

/-- Constant `_CIRCUIT_BREAK_SECONDS = 30.0` (`llm.py`, line 18). -/
def CIRCUIT_BREAK_SECONDS : ℚ := 30

/-- State of `LLMPostProcessor` (`llm.py`, lines 216-219): the
`_disabled_until` timestamp plus the configured input-character ceiling. -/
structure LLMPostProcessor where
  max_input_chars : Nat
  disabled_until : ℚ
deriving DecidableEq

/-- Result of one `LLMPostProcessor.apply` call: the returned text, the
post-call processor state, and whether the remote client was invoked. -/
structure LLMApplyResult where
  output : List Char
  state : LLMPostProcessor
  invokedClient : Bool

/-- Method `LLMPostProcessor.apply` (`llm.py`, lines 224-248) at monotonic
time `now`: normalize, short-circuit on empty text, short-circuit to
identity while the breaker is open, otherwise truncate to
`max_input_chars` and call the client; a failure opens the breaker for the
cooldown and falls back to the normalized input, a success is normalized
and falls back to the normalized input when that normalization is empty. -/
def LLMPostProcessor.apply (st : LLMPostProcessor)
    (correct : List Char → Except Unit (List Char)) (now : ℚ)
    (text : List Char) : LLMApplyResult :=
  let normalized := normalize_transcript_text text
  if normalized = [] then ⟨[], st, false⟩
  else if now < st.disabled_until then ⟨normalized, st, false⟩
  else
    match correct (normalized.take st.max_input_chars) with
    | .error _ =>
      ⟨normalized, { st with disabled_until := now + CIRCUIT_BREAK_SECONDS },
        true⟩
    | .ok corrected =>
      let cn := normalize_transcript_text corrected
      if cn = [] then ⟨normalized, st, true⟩ else ⟨cn, st, true⟩

/-- Concrete processor state for the LLM witnesses: breaker closed
(`disabled_until = 0`), input ceiling 100. -/
def llmStW : LLMPostProcessor := ⟨100, 0⟩

/-- Client that always raises `LLMClientError`. -/
def failClient : List Char → Except Unit (List Char) := fun _ => .error ()

/-- Client that always succeeds with non-blank text. -/
def okClient : List Char → Except Unit (List Char) := fun _ => .ok ['o', 'k']

/-- Client that succeeds with text that normalizes to empty. -/
def blankClient : List Char → Except Unit (List Char) := fun _ => .ok [' ']

/-- C3: after one failed remote-correction call at time `now` (breaker not
already open, input normalizing to non-empty text), the circuit breaker is
set to `now + 30`; every subsequent `apply` call whose time is before
`disabled_until` returns its normalized input unchanged, with unchanged
state, without invoking the client; and a subsequent call at or after
`disabled_until` (with input normalizing to non-empty text, since empty
input never reaches the client at all) invokes the client again. -/
theorem llm_circuit_breaker_cooldown (st : LLMPostProcessor)
    (c : List Char → Except Unit (List Char)) (now : ℚ) (t : List Char)
    (hne : normalize_transcript_text t ≠ [])
    (hopen : ¬ now < st.disabled_until)
    (hfail : c ((normalize_transcript_text t).take st.max_input_chars) =
      .error ()) :
    (st.apply c now t).state.disabled_until = now + CIRCUIT_BREAK_SECONDS ∧
    (∀ (c' : List Char → Except Unit (List Char)) (now' : ℚ) (t' : List Char),
      now' < (st.apply c now t).state.disabled_until →
      (st.apply c now t).state.apply c' now' t' =
        ⟨normalize_transcript_text t', (st.apply c now t).state, false⟩) ∧
    (∀ (c' : List Char → Except Unit (List Char)) (now' : ℚ) (t' : List Char),
      ¬ now' < (st.apply c now t).state.disabled_until →
      normalize_transcript_text t' ≠ [] →
      ((st.apply c now t).state.apply c' now' t').invokedClient = true) := by
  have h1 : (st.apply c now t).state =
      { st with disabled_until := now + CIRCUIT_BREAK_SECONDS } := by
    simp [LLMPostProcessor.apply, hne, hopen, hfail]
  refine ⟨by rw [h1], ?_, ?_⟩
  · intro c' now' t' hlt
    rw [h1] at hlt ⊢
    by_cases he : normalize_transcript_text t' = []
    · simp [LLMPostProcessor.apply, he]
    · simp [LLMPostProcessor.apply, he, hlt]
  · intro c' now' t' hge hne'
    rw [h1] at hge ⊢
    cases hc : c' ((normalize_transcript_text t').take
        ({ st with disabled_until := now + CIRCUIT_BREAK_SECONDS} :
          LLMPostProcessor).max_input_chars) with
    | error e => simp [LLMPostProcessor.apply, hne', hge, hc]
    | ok corrected =>
      by_cases hcn : normalize_transcript_text corrected = [] <;>
        simp [LLMPostProcessor.apply, hne', hge, hc, hcn]

/-- Witness for C3 at a concrete state, failing client, and times 10
(inside the cooldown window) and 30 (at the boundary). -/
theorem llm_circuit_breaker_cooldown_witness :
    (normalize_transcript_text ['h'] ≠ [] ∧
      ¬ (0 : ℚ) < llmStW.disabled_until ∧
      failClient ((normalize_transcript_text ['h']).take
        llmStW.max_input_chars) = .error ()) ∧
    (llmStW.apply failClient 0 ['h']).state.disabled_until =
      0 + CIRCUIT_BREAK_SECONDS ∧
    (llmStW.apply failClient 0 ['h']).state.apply okClient 10 ['x'] =
      ⟨normalize_transcript_text ['x'],
        (llmStW.apply failClient 0 ['h']).state, false⟩ ∧
    ((llmStW.apply failClient 0 ['h']).state.apply okClient 30 ['x']
      ).invokedClient = true :=
  by
  have main := llm_circuit_breaker_cooldown llmStW failClient 0 ['h']
    (by decide) (by norm_num [llmStW]) rfl
  refine ⟨⟨by decide, by norm_num [llmStW], rfl⟩, main.1, ?_, ?_⟩
  · exact main.2.1 okClient 10 ['x']
      (by rw [main.1]; norm_num [CIRCUIT_BREAK_SECONDS])
  · exact main.2.2 okClient 30 ['x']
      (by rw [main.1]; norm_num [CIRCUIT_BREAK_SECONDS]) (by decide)

/-- C6 counterexample: when a successful call's output normalizes to empty
text, `apply` returns the normalized input — not the original input as the
claim states: with original input `" h"`, the result is `"h"`. -/
theorem llm_empty_success_not_original :
    (llmStW.apply blankClient 0 [' ', 'h']).output ≠ [' ', 'h'] ∧
    (llmStW.apply blankClient 0 [' ', 'h']).output =
      normalize_transcript_text [' ', 'h'] := by
  decide

/-- C6 amended: `apply` never raises (it is total in this model: any client
failure is caught); a client failure results in returning the normalized,
uncorrected input; and when a successful call's output normalizes to empty
text, the normalized input is returned rather than an empty string (empty
input itself short-circuits to the empty string). -/
theorem llm_apply_total_fallback (st : LLMPostProcessor)
    (c : List Char → Except Unit (List Char)) (now : ℚ) (t : List Char) :
    (normalize_transcript_text t = [] → (st.apply c now t).output = []) ∧
    (¬ now < st.disabled_until →
      c ((normalize_transcript_text t).take st.max_input_chars) = .error () →
      (st.apply c now t).output = normalize_transcript_text t) ∧
    (∀ corrected, ¬ now < st.disabled_until →
      c ((normalize_transcript_text t).take st.max_input_chars) =
        .ok corrected →
      normalize_transcript_text corrected = [] →
      (st.apply c now t).output = normalize_transcript_text t) := by
  refine ⟨?_, ?_, ?_⟩
  · intro he
    simp [LLMPostProcessor.apply, he]
  · intro hopen hfail
    by_cases he : normalize_transcript_text t = []
    · simp [LLMPostProcessor.apply, he]
    · simp [LLMPostProcessor.apply, he, hopen, hfail]
  · intro corrected hopen hok hcn
    by_cases he : normalize_transcript_text t = []
    · simp [LLMPostProcessor.apply, he]
    · simp [LLMPostProcessor.apply, he, hopen, hok, hcn]

/-- Witness for C6's amended theorem: the empty-input branch, the failing
client, and the blank-output client at concrete inputs. -/
theorem llm_apply_total_fallback_witness :
    ((llmStW.apply okClient 0 [' ']).output = [] ∧
      normalize_transcript_text [' '] = []) ∧
    ((llmStW.apply failClient 0 ['h']).output =
      normalize_transcript_text ['h']) ∧
    ((llmStW.apply blankClient 0 [' ', 'h']).output =
      normalize_transcript_text [' ', 'h']) :=
  ⟨⟨(llm_apply_total_fallback llmStW okClient 0 [' ']).1 (by decide),
      by decide⟩,
    (llm_apply_total_fallback llmStW failClient 0 ['h']).2.1
      (by norm_num [llmStW]) rfl,
    (llm_apply_total_fallback llmStW blankClient 0 [' ', 'h']).2.2 [' ']
      (by norm_num [llmStW]) rfl (by decide)⟩

/-! Daemon orchestrator (`daemon.py`)

The daemon's mutable state under `_state_lock`, plus its recorder.  The
pending delayed-stop `threading.Timer` object and `_pending_stop_id` are
always set and cleared together in the source, so a single `Option Nat`
stands for both.  Monotonic time (`time.monotonic()`) is passed in
explicitly, and the value the stream introspection reports on a polling
tick (`recorder.is_stream_active()`) is an input of that tick. -/

/-- Constant `_HOTKEY_COOLDOWN_SECONDS = 0.25` (`daemon.py`, line 20). -/
def HOTKEY_COOLDOWN_SECONDS : ℚ := 1 / 4

/-- Constant `_RECORDING_STALE_GRACE_SECONDS = 0.5` (`daemon.py`, line 21). -/
def RECORDING_STALE_GRACE_SECONDS : ℚ := 1 / 2

/-- State of a `MoonshineFlowDaemon` (`daemon.py`, lines 33-49). -/
structure MoonshineFlowDaemon where
  stop_event : Bool
  transcription_in_progress : Bool
  last_release_at_monotonic : ℚ
  recording_stale_since_monotonic : Option ℚ
  pending_stop_id : Option Nat
  next_stop_id : Nat
  recorder : AudioRecorder
deriving DecidableEq

/-- Method `_cancel_pending_stop_locked` (`daemon.py`, lines 126-133):
clear the pending timer and id, report whether a timer existed. -/
def cancelPendingStopLocked (d : MoonshineFlowDaemon) :
    MoonshineFlowDaemon × Bool :=
  ({ d with pending_stop_id := none }, d.pending_stop_id.isSome)

/-- Method `_on_hotkey_down` (`daemon.py`, lines 74-95) at time `now`.
Returns the updated daemon and whether `recorder.start()` was invoked (the
invocation itself is modelled as succeeding). -/
def onHotkeyDown (d : MoonshineFlowDaemon) (now : ℚ) :
    MoonshineFlowDaemon × Bool :=
  if d.stop_event then (d, false)
  else
    let d1 := (cancelPendingStopLocked d).1
    if d1.transcription_in_progress then (d1, false)
    else if d1.recorder.recording then (d1, false)
    else if now < d1.last_release_at_monotonic + HOTKEY_COOLDOWN_SECONDS then
      (d1, false)
    else
      ({ d1 with recorder := (d1.recorder.start .ok).1 }, true)

/-- Method `_stop_recording_and_queue_audio` (`daemon.py`, lines 143-161)
at time `now`: no-op when shut down or not recording; otherwise stop the
recorder, refresh `last_release_at` and clear the staleness mark (the
`finally` block), and return the audio for the queue unless it is empty. -/
def stopRecordingAndQueueAudio (d : MoonshineFlowDaemon) (now : ℚ) :
    MoonshineFlowDaemon × Option Chunk :=
  if d.stop_event || !d.recorder.recording then (d, none)
  else
    let res := d.recorder.stop
    let d1 : MoonshineFlowDaemon :=
      { d with recorder := res.2, last_release_at_monotonic := now,
               recording_stale_since_monotonic := none }
    if res.1 = [] then (d1, none) else (d1, some res.1)

/-- Arm path of `_on_hotkey_up` (`daemon.py`, lines 106-124), reached while
running with the recorder recording and `release_tail_seconds > 0`: cancel
any pending stop, increment the generation id, and arm a timer carrying the
fresh id. -/
def armDelayedStop (d : MoonshineFlowDaemon) : MoonshineFlowDaemon :=
  { d with pending_stop_id := some (d.next_stop_id + 1),
           next_stop_id := d.next_stop_id + 1 }

/-- Method `_on_delayed_stop_timer` (`daemon.py`, lines 135-141) fired with
generation `id` at time `now`: a timer whose id is no longer the current
pending id discards itself; otherwise the pending id is cleared and the
stop is executed.  The boolean reports whether the stop path ran. -/
def onDelayedStopTimer (d : MoonshineFlowDaemon) (id : Nat) (now : ℚ) :
    MoonshineFlowDaemon × Bool :=
  if d.pending_stop_id = some id then
    ((stopRecordingAndQueueAudio { d with pending_stop_id := none } now).1,
      true)
  else
    (d, false)

/-- Method `_recover_stale_recording_if_needed` (`daemon.py`, lines
186-219) at time `now`, the stream's reported activity for this tick being
`streamActive`.  The boolean reports whether a recovery close ran. -/
def recoverStaleRecordingIfNeeded (d : MoonshineFlowDaemon) (now : ℚ)
    (streamActive : Bool) : MoonshineFlowDaemon × Bool :=
  if !d.recorder.recording then
    ({ d with recording_stale_since_monotonic := none }, false)
  else if streamActive then
    ({ d with recording_stale_since_monotonic := none }, false)
  else
    match d.recording_stale_since_monotonic with
    | none => ({ d with recording_stale_since_monotonic := some now }, false)
    | some staleSince =>
      if now - staleSince < RECORDING_STALE_GRACE_SECONDS then (d, false)
      else
        ({ d with pending_stop_id := none,
                  recorder := d.recorder.close,
                  recording_stale_since_monotonic := none,
                  last_release_at_monotonic := now }, true)

/-- Daemon in its initial state (`daemon.py`, lines 33-49), over a recorder
that is not capturing. -/
def daemonInit : MoonshineFlowDaemon :=
  ⟨false, false, 0, none, none, 0, ⟨16000, 1, 60, [], false, none⟩⟩

/-- C5: when the daemon is running, no transcription is in progress and the
recorder is not already recording, a hotkey press at time `now` strictly
before `last_release_at + 0.25` does not start a recording, and a press at
or after that boundary does. -/
theorem hotkey_press_cooldown_boundary (d : MoonshineFlowDaemon) (now : ℚ)
    (hstop : d.stop_event = false)
    (htip : d.transcription_in_progress = false)
    (hrec : d.recorder.recording = false) :
    (onHotkeyDown d now).2 = true ↔
      d.last_release_at_monotonic + HOTKEY_COOLDOWN_SECONDS ≤ now := by
  by_cases hlt : now < d.last_release_at_monotonic + HOTKEY_COOLDOWN_SECONDS
  · simp [onHotkeyDown, cancelPendingStopLocked, hstop, htip, hrec, hlt,
      not_le.mpr hlt]
  · simp [onHotkeyDown, cancelPendingStopLocked, hstop, htip, hrec, hlt,
      not_lt.mp hlt]

/-- Witness for C5 at the initial daemon: a press exactly at the cooldown
boundary `0 + 0.25` starts a recording. -/
theorem hotkey_press_cooldown_boundary_witness :
    (daemonInit.stop_event = false ∧
      daemonInit.transcription_in_progress = false ∧
      daemonInit.recorder.recording = false) ∧
    ((onHotkeyDown daemonInit (1 / 4)).2 = true ↔
      daemonInit.last_release_at_monotonic + HOTKEY_COOLDOWN_SECONDS ≤
        1 / 4) :=
  ⟨⟨rfl, rfl, rfl⟩,
    hotkey_press_cooldown_boundary daemonInit (1 / 4) rfl rfl rfl⟩

/-! Delayed-stop timer supersession (claim C4)

The operations that touch `_pending_stop_id` / `_next_stop_id` are the arm
path of `_on_hotkey_up`, the timer callback `_on_delayed_stop_timer`, and
the callers of `_cancel_pending_stop_locked` (`_on_hotkey_down`, staleness
recovery, shutdown).  A fired timer may carry any id — in particular one
whose `cancel()` lost the race — which is exactly the situation the
generation id guards against. -/

/-- Events that touch the delayed-stop timer state. -/
inductive TimerEvent
  | arm
  | fire (id : Nat) (now : ℚ)
  | cancel
deriving DecidableEq

/-- One timer event applied to the daemon; the list collects the ids of
timers that executed the stop path. -/
def timerStep (d : MoonshineFlowDaemon) (e : TimerEvent) :
    MoonshineFlowDaemon × List Nat :=
  match e with
  | .arm => (armDelayedStop d, [])
  | .fire id now =>
    let r := onDelayedStopTimer d id now
    (r.1, if r.2 then [id] else [])
  | .cancel => ((cancelPendingStopLocked d).1, [])

/-- A sequence of timer events applied in order, collecting every stop
execution. -/
def timerRun (d : MoonshineFlowDaemon) :
    List TimerEvent → MoonshineFlowDaemon × List Nat
  | [] => (d, [])
  | e :: evs =>
    let s := timerStep d e
    let r := timerRun s.1 evs
    (r.1, s.2 ++ r.2)

/-- Timer-state invariant: the only live pending id, if any, is the current
generation `next_stop_id`. -/
def TimerInv (d : MoonshineFlowDaemon) : Prop :=
  d.pending_stop_id = none ∨ d.pending_stop_id = some d.next_stop_id

theorem stopRecordingAndQueueAudio_pending (d : MoonshineFlowDaemon)
    (now : ℚ) :
    (stopRecordingAndQueueAudio d now).1.pending_stop_id =
      d.pending_stop_id := by
  simp only [stopRecordingAndQueueAudio]
  split_ifs <;> rfl

theorem stopRecordingAndQueueAudio_next (d : MoonshineFlowDaemon)
    (now : ℚ) :
    (stopRecordingAndQueueAudio d now).1.next_stop_id = d.next_stop_id := by
  simp only [stopRecordingAndQueueAudio]
  split_ifs <;> rfl

theorem timerStep_preserves_inv {d : MoonshineFlowDaemon} {e : TimerEvent}
    (h : TimerInv d) : TimerInv (timerStep d e).1 := by
  cases e with
  | arm => exact Or.inr rfl
  | fire id now =>
    simp only [timerStep, onDelayedStopTimer]
    by_cases hp : d.pending_stop_id = some id
    · simp only [if_pos hp]
      exact Or.inl (stopRecordingAndQueueAudio_pending _ _)
    · simpa [hp] using h
  | cancel => exact Or.inl rfl

theorem timerStep_next_mono (d : MoonshineFlowDaemon) (e : TimerEvent) :
    d.next_stop_id ≤ (timerStep d e).1.next_stop_id := by
  cases e with
  | arm => exact Nat.le_succ _
  | fire id now =>
    simp only [timerStep, onDelayedStopTimer]
    by_cases hp : d.pending_stop_id = some id
    · simp only [if_pos hp]
      rw [stopRecordingAndQueueAudio_next]
    · simp [hp]
  | cancel => exact le_rfl

theorem timerRun_next_mono (evs : List TimerEvent) :
    ∀ d : MoonshineFlowDaemon,
      d.next_stop_id ≤ (timerRun d evs).1.next_stop_id := by
  induction evs with
  | nil => intro d; exact le_rfl
  | cons e evs ih =>
    intro d
    exact le_trans (timerStep_next_mono d e) (ih (timerStep d e).1)

theorem timerRun_inv (evs : List TimerEvent) :
    ∀ d : MoonshineFlowDaemon, TimerInv d → TimerInv (timerRun d evs).1 := by
  induction evs with
  | nil => intro d h; exact h
  | cons e evs ih => intro d h; exact ih _ (timerStep_preserves_inv h)

theorem timerStep_stop_mem {d : MoonshineFlowDaemon} {e : TimerEvent}
    {i : Nat} (h : i ∈ (timerStep d e).2) :
    d.pending_stop_id = some i ∧ (∃ now, e = TimerEvent.fire i now) := by
  cases e with
  | arm => simp [timerStep] at h
  | fire id now =>
    simp only [timerStep, onDelayedStopTimer] at h
    by_cases hp : d.pending_stop_id = some id
    · simp only [if_pos hp] at h
      simp at h
      subst h
      exact ⟨hp, now, rfl⟩
    · simp [hp] at h
  | cancel => simp [timerStep] at h

theorem timerRun_no_stale_stop (a : Nat) (evs : List TimerEvent) :
    ∀ d : MoonshineFlowDaemon, TimerInv d → a < d.next_stop_id →
      a ∉ (timerRun d evs).2 := by
  induction evs with
  | nil => intro d _ _; simp [timerRun]
  | cons e evs ih =>
    intro d hinv hlt
    simp only [timerRun, List.mem_append]
    push_neg
    constructor
    · intro hmem
      rcases timerStep_stop_mem hmem with ⟨hp, _⟩
      rcases hinv with h | h
      · rw [h] at hp; cases hp
      · rw [h] at hp
        cases hp
        omega
    · exact ih _ (timerStep_preserves_inv hinv)
        (lt_of_lt_of_le hlt (timerStep_next_mono d e))

theorem timerRun_stops_fired (evs : List TimerEvent) :
    ∀ (d : MoonshineFlowDaemon) (i : Nat), i ∈ (timerRun d evs).2 →
      ∃ now, TimerEvent.fire i now ∈ evs := by
  induction evs with
  | nil => intro d i h; simp [timerRun] at h
  | cons e evs ih =>
    intro d i h
    simp only [timerRun, List.mem_append] at h
    rcases h with h | h
    · rcases timerStep_stop_mem h with ⟨_, now, rfl⟩
      exact ⟨now, by simp⟩
    · rcases ih _ i h with ⟨now, hmem⟩
      exact ⟨now, by simp [hmem]⟩

theorem timerRun_stops_le (evs : List TimerEvent) :
    ∀ d : MoonshineFlowDaemon, TimerInv d →
      ∀ i ∈ (timerRun d evs).2, i ≤ (timerRun d evs).1.next_stop_id := by
  induction evs with
  | nil => intro d _ i h; simp [timerRun] at h
  | cons e evs ih =>
    intro d hinv i h
    simp only [timerRun, List.mem_append] at h ⊢
    rcases h with h | h
    · rcases timerStep_stop_mem h with ⟨hp, _⟩
      rcases hinv with h' | h'
      · rw [h'] at hp; cases hp
      · rw [h'] at hp
        cases hp
        exact le_trans (timerStep_next_mono d e)
          (timerRun_next_mono evs (timerStep d e).1)
    · exact ih _ (timerStep_preserves_inv hinv) i h

theorem timerRun_append (l₁ l₂ : List TimerEvent) :
    ∀ d : MoonshineFlowDaemon,
      timerRun d (l₁ ++ l₂) =
        ((timerRun (timerRun d l₁).1 l₂).1,
          (timerRun d l₁).2 ++ (timerRun (timerRun d l₁).1 l₂).2) := by
  induction l₁ with
  | nil => intro d; simp [timerRun]
  | cons e l₁ ih =>
    intro d
    simp only [List.cons_append, timerRun, List.append_eq]
    rw [ih ((timerStep d e).1)]
    simp [List.append_assoc]

/-- C4: in every reachable daemon state at most one delayed-stop timer is
live — the pending id, when set, is the current generation `next_stop_id`,
an invariant every timer event preserves; arming a delayed stop replaces
the pending id with a freshly incremented generation; a fired timer whose
id differs from the current pending id changes nothing and performs no
stop; and when a second delayed stop is armed before the first timer fires,
the first timer's id never executes the stop path anywhere in the run. -/
theorem delayed_stop_timer_supersession :
    (∀ d : MoonshineFlowDaemon,
      (timerStep d .arm).1.pending_stop_id = some (d.next_stop_id + 1) ∧
      (timerStep d .arm).1.next_stop_id = d.next_stop_id + 1) ∧
    (∀ (d : MoonshineFlowDaemon) (id : Nat) (now : ℚ),
      d.pending_stop_id ≠ some id → timerStep d (.fire id now) = (d, [])) ∧
    (∀ (d : MoonshineFlowDaemon) (e : TimerEvent),
      TimerInv d → TimerInv (timerStep d e).1) ∧
    (∀ (d0 : MoonshineFlowDaemon) (evs₁ evs₂ evs₃ : List TimerEvent),
      TimerInv d0 →
      (∀ now : ℚ,
        TimerEvent.fire ((timerRun d0 evs₁).1.next_stop_id + 1) now ∉ evs₂) →
      ((timerRun d0 evs₁).1.next_stop_id + 1) ∉
        (timerRun d0
          (evs₁ ++ TimerEvent.arm :: (evs₂ ++ TimerEvent.arm :: evs₃))).2) := by
  refine ⟨fun d => ⟨rfl, rfl⟩, ?_, fun d e h => timerStep_preserves_inv h, ?_⟩
  · intro d id now h
    simp [timerStep, onDelayedStopTimer, h]
  · intro d0 evs₁ evs₂ evs₃ hinv hnofire hmem
    have hinv1 : TimerInv (timerRun d0 evs₁).1 := timerRun_inv evs₁ d0 hinv
    rw [timerRun_append] at hmem
    simp only [List.mem_append] at hmem
    rcases hmem with h1 | h2
    · have := timerRun_stops_le evs₁ d0 hinv _ h1
      omega
    · simp only [timerRun, timerStep, List.nil_append] at h2
      rw [timerRun_append] at h2
      simp only [List.mem_append] at h2
      rcases h2 with h2 | h3
      · rcases timerRun_stops_fired evs₂ _ _ h2 with ⟨now, hf⟩
        exact hnofire now hf
      · simp only [timerRun, timerStep, List.nil_append] at h3
        refine timerRun_no_stale_stop _ evs₃ _ (Or.inr rfl) ?_ h3
        have hmono :
            (armDelayedStop (timerRun d0 evs₁).1).next_stop_id ≤
              (timerRun (armDelayedStop (timerRun d0 evs₁).1) evs₂
                ).1.next_stop_id :=
          timerRun_next_mono evs₂ _
        simp only [armDelayedStop] at hmono ⊢
        omega

/-- Witness for C4: from the initial daemon, arm twice and then fire the
first timer's id; the theorem shows the first id (1) never stops. -/
theorem delayed_stop_timer_supersession_witness :
    (TimerInv daemonInit ∧
      (∀ now : ℚ, TimerEvent.fire
        ((timerRun daemonInit []).1.next_stop_id + 1) now ∉
          ([] : List TimerEvent))) ∧
    ((timerRun daemonInit []).1.next_stop_id + 1) ∉
      (timerRun daemonInit
        ([] ++ TimerEvent.arm :: (([] : List TimerEvent) ++
          TimerEvent.arm :: [TimerEvent.fire 1 0]))).2 :=
  ⟨⟨Or.inl rfl, fun now h => by simp at h⟩,
    delayed_stop_timer_supersession.2.2.2 daemonInit [] [] [.fire 1 0]
      (Or.inl rfl) (fun now h => by simp at h)⟩

/-! Staleness recovery (claim C7) -/

/-- A sequence of polling ticks; each entry carries the tick's time and the
stream activity the recorder reports on it.  The second component counts
recovery closes performed over the sequence. -/
def recoverTickRun (d : MoonshineFlowDaemon) :
    List (ℚ × Bool) → MoonshineFlowDaemon × Nat
  | [] => (d, 0)
  | (now, act) :: rest =>
    let s := recoverStaleRecordingIfNeeded d now act
    let r := recoverTickRun s.1 rest
    (r.1, (if s.2 then 1 else 0) + r.2)

theorem recoverTickRun_not_recording (inputs : List (ℚ × Bool)) :
    ∀ d : MoonshineFlowDaemon, d.recorder.recording = false →
      (recoverTickRun d inputs).2 = 0 ∧
      (recoverTickRun d inputs).1.recorder = d.recorder := by
  induction inputs with
  | nil => intro d _; exact ⟨rfl, rfl⟩
  | cons p rest ih =>
    intro d h
    obtain ⟨now, act⟩ := p
    have hs : recoverStaleRecordingIfNeeded d now act =
        ({ d with recording_stale_since_monotonic := none }, false) := by
      simp [recoverStaleRecordingIfNeeded, h]
    simp only [recoverTickRun, hs]
    have := ih { d with recording_stale_since_monotonic := none } h
    simp [this.1, this.2]

/-- C7: on each polling tick, a tick where recording has stopped, or where
the stream reports active, resets the staleness clock and performs no
recovery; the first tick observing an inactive stream while recording only
marks the time; a later inactive tick strictly inside the 0.5 s grace
window changes nothing; an inactive tick at or beyond the grace window
performs the recovery — cancel any pending stop, hard-close the recorder,
clear the staleness mark, refresh `last_release_at` — and since the closed
recorder is no longer recording, any further ticks perform no recovery, so
a sustained outage triggers exactly one recovery close. -/
theorem stale_stream_recovery (d : MoonshineFlowDaemon) (now : ℚ)
    (act : Bool) (t0 : ℚ) (inputs : List (ℚ × Bool)) :
    (d.recorder.recording = false →
      recoverStaleRecordingIfNeeded d now act =
        ({ d with recording_stale_since_monotonic := none }, false)) ∧
    (act = true →
      recoverStaleRecordingIfNeeded d now act =
        ({ d with recording_stale_since_monotonic := none }, false)) ∧
    (d.recorder.recording = true → act = false →
      d.recording_stale_since_monotonic = none →
      recoverStaleRecordingIfNeeded d now act =
        ({ d with recording_stale_since_monotonic := some now }, false)) ∧
    (d.recorder.recording = true → act = false →
      d.recording_stale_since_monotonic = some t0 →
      now - t0 < RECORDING_STALE_GRACE_SECONDS →
      recoverStaleRecordingIfNeeded d now act = (d, false)) ∧
    (d.recorder.recording = true → act = false →
      d.recording_stale_since_monotonic = some t0 →
      RECORDING_STALE_GRACE_SECONDS ≤ now - t0 →
      recoverStaleRecordingIfNeeded d now act =
        ({ d with pending_stop_id := none,
                  recorder := d.recorder.close,
                  recording_stale_since_monotonic := none,
                  last_release_at_monotonic := now }, true) ∧
      (recoverStaleRecordingIfNeeded d now act).1.recorder.recording =
        false) ∧
    (d.recorder.recording = false → (recoverTickRun d inputs).2 = 0) := by
  refine ⟨?_, ?_, ?_, ?_, ?_, ?_⟩
  · intro h
    simp [recoverStaleRecordingIfNeeded, h]
  · intro h
    subst h
    by_cases hr : d.recorder.recording <;>
      simp [recoverStaleRecordingIfNeeded, hr]
  · intro hr ha hs
    simp [recoverStaleRecordingIfNeeded, hr, ha, hs]
  · intro hr ha hs hlt
    simp [recoverStaleRecordingIfNeeded, hr, ha, hs, hlt]
  · intro hr ha hs hge
    have hmain : recoverStaleRecordingIfNeeded d now act =
        ({ d with pending_stop_id := none,
                  recorder := d.recorder.close,
                  recording_stale_since_monotonic := none,
                  last_release_at_monotonic := now }, true) := by
      simp [recoverStaleRecordingIfNeeded, hr, ha, hs, not_lt.mpr hge]
    refine ⟨hmain, ?_⟩
    rw [hmain]
    simp only [AudioRecorder.close]
    split <;> rfl
  · intro h
    exact (recoverTickRun_not_recording inputs d h).1

/-- Daemon capturing with a live stream, for the C7 witness. -/
def daemonRecording : MoonshineFlowDaemon :=
  ⟨false, false, 0, none, none, 0, ⟨1, 1, 9, [], true, some ()⟩⟩

/-- Witness for C7: at `daemonRecording`, an inactive tick at time 0 marks
the staleness clock; an inactive tick at 1/4 is inside the grace window and
changes nothing; an inactive tick at 1/2 recovers; and a daemon that is not
recording performs no recovery over a further tick. -/
theorem stale_stream_recovery_witness :
    (recoverStaleRecordingIfNeeded daemonRecording 0 false =
      ({ daemonRecording with
          recording_stale_since_monotonic := some 0 }, false)) ∧
    (recoverStaleRecordingIfNeeded
        { daemonRecording with recording_stale_since_monotonic := some 0 }
        (1 / 4) false =
      ({ daemonRecording with recording_stale_since_monotonic := some 0 },
        false)) ∧
    (recoverStaleRecordingIfNeeded
        { daemonRecording with recording_stale_since_monotonic := some 0 }
        (1 / 2) false =
      ({ daemonRecording with
          pending_stop_id := none,
          recorder := daemonRecording.recorder.close,
          recording_stale_since_monotonic := none,
          last_release_at_monotonic := 1 / 2 }, true)) ∧
    (recoverTickRun daemonInit [(1, false)]).2 = 0 :=
  ⟨(stale_stream_recovery daemonRecording 0 false 0 []).2.2.1 rfl rfl rfl,
    (stale_stream_recovery
        { daemonRecording with recording_stale_since_monotonic := some 0 }
        (1 / 4) false 0 []).2.2.2.1 rfl rfl rfl
      (by norm_num [RECORDING_STALE_GRACE_SECONDS]),
    ((stale_stream_recovery
        { daemonRecording with recording_stale_since_monotonic := some 0 }
        (1 / 2) false 0 []).2.2.2.2.1 rfl rfl rfl
      (by norm_num [RECORDING_STALE_GRACE_SECONDS])).1,
    (stale_stream_recovery daemonInit 0 false 0 [(1, false)]).2.2.2.2.2 rfl⟩

/-! Hotkey monitor (`hotkey_monitor.py`)

The `HotkeyEdgeState` under `self._lock`: the pressed flag and whether the
max-hold watchdog timer is armed.  Whether an OS key event matches the
configured key (`self._matches(key)`) is an input of each event. -/

/-- State of a `HotkeyMonitor` (`hotkey_monitor.py`, lines 37-45);
`max_hold_enabled` records whether `max_hold_seconds` was configured
positive (line 41). -/
structure HotkeyMonitor where
  max_hold_enabled : Bool
  pressed : Bool
  timerArmed : Bool
deriving DecidableEq

/-- One callback emission of the monitor. -/
inductive CbEvent
  | press
  | release
deriving DecidableEq

/-- Method `_on_press` (`hotkey_monitor.py`, lines 80-87): a non-matching
key, or a press while already pressed, is a no-op; otherwise the flag is
set, the watchdog (re)armed, and the press callback fired. -/
def monOnPress (m : HotkeyMonitor) (matchesKey : Bool) :
    HotkeyMonitor × List CbEvent :=
  if !matchesKey || m.pressed then (m, [])
  else
    ({ m with pressed := true, timerArmed := m.max_hold_enabled },
      [CbEvent.press])

/-- Method `_on_release` (`hotkey_monitor.py`, lines 89-96): a non-matching
key, or a release while not pressed, is a no-op; otherwise the flag is
cleared, the watchdog canceled, and the release callback fired. -/
def monOnRelease (m : HotkeyMonitor) (matchesKey : Bool) :
    HotkeyMonitor × List CbEvent :=
  if !matchesKey || !m.pressed then (m, [])
  else
    ({ m with pressed := false, timerArmed := false }, [CbEvent.release])

/-- Method `_force_release_if_stuck` (`hotkey_monitor.py`, lines 98-109):
the watchdog fires the release callback only when still pressed, itself
clearing the flag and the timer slot. -/
def monForceRelease (m : HotkeyMonitor) : HotkeyMonitor × List CbEvent :=
  if !m.pressed then (m, [])
  else
    ({ m with pressed := false, timerArmed := false }, [CbEvent.release])

/-- OS-delivered and watchdog events a running monitor receives. -/
inductive MonEvent
  | osPress (matchesKey : Bool)
  | osRelease (matchesKey : Bool)
  | watchdog
deriving DecidableEq

/-- One event dispatched to the monitor. -/
def monStep (m : HotkeyMonitor) : MonEvent → HotkeyMonitor × List CbEvent
  | .osPress b => monOnPress m b
  | .osRelease b => monOnRelease m b
  | .watchdog => monForceRelease m

/-- A sequence of events dispatched in order, collecting the emitted
callback trace. -/
def monRun (m : HotkeyMonitor) :
    List MonEvent → HotkeyMonitor × List CbEvent
  | [] => (m, [])
  | e :: evs =>
    let s := monStep m e
    let r := monRun s.1 evs
    (r.1, s.2 ++ r.2)

/-- Strict press/release alternation of a callback trace relative to the
edge state `b` (`true` = pressed): a press callback is emitted only from
the un-pressed state and a release callback only from the pressed state —
the trace-level reading of "at most once per edge". -/
def alternates (b : Bool) : List CbEvent → Bool
  | [] => true
  | CbEvent.press :: rest => !b && alternates true rest
  | CbEvent.release :: rest => b && alternates false rest

/-- Edge state after a callback trace. -/
def endEdge (b : Bool) : List CbEvent → Bool
  | [] => b
  | CbEvent.press :: rest => endEdge true rest
  | CbEvent.release :: rest => endEdge false rest

theorem alternates_append (l₁ l₂ : List CbEvent) :
    ∀ b : Bool, alternates b (l₁ ++ l₂) =
      (alternates b l₁ && alternates (endEdge b l₁) l₂) := by
  induction l₁ with
  | nil => intro b; simp [alternates, endEdge]
  | cons e l₁ ih =>
    intro b
    cases e <;> simp [alternates, endEdge, ih, Bool.and_assoc]

theorem monStep_edge (m : HotkeyMonitor) (e : MonEvent) :
    alternates m.pressed (monStep m e).2 = true ∧
    (monStep m e).1.pressed = endEdge m.pressed (monStep m e).2 := by
  cases e with
  | osPress b =>
    by_cases hb : b <;> by_cases hp : m.pressed <;>
      simp [monStep, monOnPress, alternates, endEdge, hb, hp]
  | osRelease b =>
    by_cases hb : b <;> by_cases hp : m.pressed <;>
      simp [monStep, monOnRelease, alternates, endEdge, hb, hp]
  | watchdog =>
    by_cases hp : m.pressed <;>
      simp [monStep, monForceRelease, alternates, endEdge, hp]

theorem monRun_alternates (evs : List MonEvent) :
    ∀ m : HotkeyMonitor, alternates m.pressed (monRun m evs).2 = true := by
  induction evs with
  | nil => intro m; rfl
  | cons e evs ih =>
    intro m
    simp only [monRun]
    rw [alternates_append]
    rcases monStep_edge m e with ⟨h1, h2⟩
    rw [h1, ← h2, ih (monStep m e).1]
    rfl

/-- C8: the press and release callbacks fire at most once per edge — a
matching press while the pressed flag is already set is a no-op, a release
while it is clear is a no-op, the max-hold watchdog fires the release
callback only while the flag is still set and itself clears it, and over
any event sequence the emitted callback trace strictly alternates
press/release relative to the starting edge state. -/
theorem hotkey_callbacks_once_per_edge (m : HotkeyMonitor) (b : Bool)
    (evs : List MonEvent) :
    (m.pressed = true → monOnPress m b = (m, [])) ∧
    (m.pressed = false → monOnRelease m b = (m, [])) ∧
    (m.pressed = false → monForceRelease m = (m, [])) ∧
    (m.pressed = true →
      monForceRelease m =
        ({ m with pressed := false, timerArmed := false },
          [CbEvent.release])) ∧
    alternates m.pressed (monRun m evs).2 = true := by
  refine ⟨?_, ?_, ?_, ?_, monRun_alternates evs m⟩
  · intro h; simp [monOnPress, h]
  · intro h; simp [monOnRelease, h]
  · intro h; simp [monForceRelease, h]
  · intro h; simp [monForceRelease, h]

/-- Witness for C8 at concrete monitors: a pressed monitor ignores a second
matching press, an idle monitor ignores a release, the watchdog on a
pressed monitor emits exactly one release, and a concrete event sequence
emits an alternating trace. -/
theorem hotkey_callbacks_once_per_edge_witness :
    (monOnPress ⟨true, true, true⟩ true = (⟨true, true, true⟩, [])) ∧
    (monOnRelease ⟨true, false, false⟩ true = (⟨true, false, false⟩, [])) ∧
    (monForceRelease ⟨true, true, true⟩ =
      (⟨true, false, false⟩, [CbEvent.release])) ∧
    alternates false
      (monRun ⟨true, false, false⟩
        [MonEvent.osPress true, MonEvent.osPress true,
          MonEvent.osRelease true, MonEvent.watchdog]).2 = true :=
  ⟨(hotkey_callbacks_once_per_edge ⟨true, true, true⟩ true []).1 rfl,
    (hotkey_callbacks_once_per_edge ⟨true, false, false⟩ true []).2.1 rfl,
    (hotkey_callbacks_once_per_edge ⟨true, true, true⟩ true []).2.2.2.1 rfl,
    (hotkey_callbacks_once_per_edge ⟨true, false, false⟩ true
      [MonEvent.osPress true, MonEvent.osPress true,
        MonEvent.osRelease true, MonEvent.watchdog]).2.2.2.2⟩

end MoonshineFlow
